import Mathlib

/-!
Verification of the cicd-operator event-orchestration core against its
natural-language specification.

The Go sources are shallowly embedded: pure helpers become Lean
functions, the in-memory fake git provider becomes explicit state
passing over a `Store`, the job reconciler becomes a pure function of
the job and an oracle describing the outcomes of the cluster-client
calls it makes, and fallible Go code returns `Except`-style results.
Machine integers are modelled as `Nat`/`Int`; the one place the 64-bit
range matters (`strconv.Atoi`) carries an explicit `2 ^ 63` bound.
Panics (nil-pointer dereference, slice index out of range) are modelled
as an explicit `crash` outcome.
-/

namespace Cicd

/-! ## Go string primitives

`strings.Contains` and `strings.Split` from the Go standard library,
modelled over `List Char`.  `goSplitAux` carries a fuel argument equal
to the length of the scanned list so that the recursion is structural
(each step either consumes one character or, on a separator match,
consumes at least one); `goSplitAux_fuel_irrelevant`-style reasoning is
avoided by always calling it with fuel `s.length`, which the lemmas
below show is sufficient. -/

/-- `strings.Contains s pat`: `pat` occurs as a contiguous substring of `s`. -/
def hasSubstr : List Char → List Char → Bool
  | [], pat => pat.isEmpty
  | c :: rest, pat => pat.isPrefixOf (c :: rest) || hasSubstr rest pat

/-- Scanner for `strings.Split`: walks `s`, cutting a segment each time
`sep` matches at the current position (greedy, left to right), exactly as
Go's `strings.Split` does for a non-empty separator.  `acc` holds the
current segment reversed; `fuel` bounds the recursion. -/
def goSplitAux (sep : List Char) : Nat → List Char → List Char → List (List Char)
  | _, [], acc => [acc.reverse]
  | 0, s, acc => [acc.reverse ++ s]
  | fuel + 1, c :: rest, acc =>
    if sep.isPrefixOf (c :: rest) then
      acc.reverse :: goSplitAux sep fuel (rest.drop (sep.length - 1)) []
    else
      goSplitAux sep fuel rest (c :: acc)

/-- Go `strings.Split` on character lists (non-empty separator). -/
def goSplitChars (sep s : List Char) : List (List Char) :=
  goSplitAux sep s.length s []

/-- Go `strings.Split` on strings. -/
def goSplit (s sep : String) : List (List Char) :=
  goSplitChars sep.data s.data

/-! ## `strconv.Atoi` -/

/-- A decimal digit character. -/
def isDigitCh (c : Char) : Bool :=
  48 ≤ c.toNat && c.toNat ≤ 57

/-- Numeric value of a digit character. -/
def digitVal (c : Char) : Nat :=
  c.toNat - 48

/-- Character for a digit value. -/
def digitChar (d : Nat) : Char :=
  Char.ofNat (48 + d)

/-- Parse a non-empty all-digit string to its value. -/
def parseDigits (s : List Char) : Option Nat :=
  if s ≠ [] ∧ s.all isDigitCh then
    some (s.foldl (fun a c => a * 10 + digitVal c) 0)
  else
    none

/-- `strconv.Atoi`: optional sign, then decimal digits; errors (`none`)
on an empty or non-numeric string and on values outside the 64-bit
`int` range. -/
def atoi (s : List Char) : Option Int :=
  match s with
  | [] => none
  | c :: rest =>
    if c = '+' then
      (parseDigits rest).bind fun v => if v < 2 ^ 63 then some (Int.ofNat v) else none
    else if c = '-' then
      (parseDigits rest).bind fun v => if v ≤ 2 ^ 63 then some (-(Int.ofNat v)) else none
    else
      (parseDigits s).bind fun v => if v < 2 ^ 63 then some (Int.ofNat v) else none

/-! ## Rate-limit error convention (`pkg/git/http.go`) -/

/-- The substring `CheckRateLimitGetResetTime` looks for. -/
def rateLimitPhrase : String := "Rate limit exceeded"

/-- `CheckRateLimitGetResetTime err`.  A Go `error` is `Option String`
(`none` is the nil error, `some msg` an error whose `Error()` text is
`msg`).  `.ok t` models a normal return of `t`; `.error ()` models the
panic that Go's `strings.Split(strErr, "::")[1]` raises when the text
contains the phrase but no `"::"` separator. -/
def CheckRateLimitGetResetTime (err : Option String) : Except Unit Int :=
  match err with
  | none => .ok 0
  | some msg =>
    if hasSubstr msg.data rateLimitPhrase.data then
      match goSplit msg "::" with
      | _ :: second :: _ =>
        let unixTime := (goSplitChars ['.'] second).headD []
        match atoi unixTime with
        | some tm => .ok tm
        | none => .ok 0
      | _ => .error ()
    else
      .ok 0

/-- `GetGapTime target` returns `int64(target) - time.Now().Unix()`;
the current time is passed explicitly. -/
def GetGapTime (target : Int) (now : Int) : Int :=
  target - now

/-- The rate-limit message the in-memory fake provider constructs
(`fmt.Errorf("unixtime::%s. Rate limit exceeded, code 403. …")`), with
the formatted reset time spliced in. -/
def rateLimitTail : String :=
  ". Rate limit exceeded, code 403. Please increase the limit or wait until reset"

/-- Decimal rendering of a natural number (`strconv.FormatInt` for a
non-negative value), as a character list. -/
def natStr (n : Nat) : List Char :=
  if n = 0 then ['0'] else ((Nat.digits 10 n).reverse).map digitChar

/-- The full rate-limit error text for reset epoch `n`, exactly as the
fake provider formats it. -/
def rateLimitMessage (n : Nat) : String :=
  "unixtime::" ++ String.mk (natStr n) ++ rateLimitTail

/-! ## Git data model (the `pkg/git` types the approval plugin reads) -/

/-- `git.User`: a remote account, identified by its id. -/
structure User where
  id : Int
  name : String
deriving DecidableEq, Repr

/-- `git.IssueLabel`. -/
structure IssueLabel where
  name : String
deriving DecidableEq, Repr

/-- `git.PullRequestState` (`"open"` / `"closed"`; `unknown` is the Go
zero value `""`). -/
inductive PullRequestState
  | opened
  | closed
  | unknown
deriving DecidableEq, Repr

/-- `git.PullRequestAction`; only `labeled` / `unlabeled` are inspected
by the approval plugin, every other action is `other`. -/
inductive PullRequestAction
  | labeled
  | unlabeled
  | other
deriving DecidableEq, Repr

/-- `git.PullRequestReviewState` (`"approved"`, `"unapproved"`, or the
empty string for a plain comment). -/
inductive PullRequestReviewState
  | approved
  | unapproved
  | empty
deriving DecidableEq, Repr

/-- `git.PullRequest` (the fields the embedded code reads). -/
structure PullRequest where
  id : Nat
  title : String
  author : User
  url : String
  state : PullRequestState
  action : PullRequestAction
  mergeable : Bool
  labels : List IssueLabel
  labelChanged : List IssueLabel
deriving DecidableEq, Repr

/-- `git.Comment`: body text plus creation time (unix seconds). -/
structure Comment where
  body : String
  createdAt : Nat
deriving DecidableEq, Repr

/-- `git.Issue`: carries a possibly-nil pointer to the pull request the
comment is attached to. -/
structure Issue where
  pullRequest : Option PullRequest
deriving DecidableEq, Repr

/-- `git.IssueComment`: a comment or review event on a PR. -/
structure IssueComment where
  author : User
  comment : Comment
  issue : Issue
  reviewState : PullRequestReviewState
deriving DecidableEq, Repr

/-- `git.EventType` (the constants the approval plugin compares with). -/
inductive EventType
  | pullRequest
  | pullRequestReview
  | issueComment
  | push
deriving DecidableEq, Repr

/-- `git.Webhook`: the normalized event. `pullRequest` and
`issueComment` are nilable pointers in Go, hence `Option`. -/
structure Webhook where
  eventType : EventType
  sender : User
  repoURL : String
  pullRequest : Option PullRequest
  issueComment : Option IssueComment
deriving DecidableEq, Repr

/-! ## Chatops command extraction -/

/-- `chatops.Command`: a slash command name (`typ`, Go field `Type`)
with its whitespace-separated arguments. -/
structure Command where
  typ : String
  args : List String
deriving DecidableEq, Repr

/-- Modelled from the spec: the Command Extractor
(`chatops.ExtractCommands`, whose body is not part of this excerpt)
"scans a comment body for lines/tokens beginning with `/`, splits each
into a command name and a whitespace-separated argument list, and
yields a sequence (zero or more) of such commands per comment;
unrecognized text is ignored, not an error". -/
def ExtractCommands (body : String) : List Command :=
  (goSplitChars ['\n'] body.data).filterMap fun line =>
    match (goSplitChars [' '] line).filter (fun t => !t.isEmpty) with
    | [] => none
    | tok :: rest =>
      match tok with
      | '/' :: nameChars => some ⟨String.mk nameChars, rest.map String.mk⟩
      | _ => none

/-! ## The approval consensus scan (`checkApproval` in the approve plugin) -/

/-- The inner command loop of one `checkApproval` iteration: the first
extracted command that is `/approve` (no arguments) decides `true`, the
first that is `/approve cancel` decides `false`; otherwise no verdict. -/
def commandsVerdict : List Command → Option Bool
  | [] => none
  | cmd :: rest =>
    if cmd.typ = "approve" ∧ cmd.args = [] then some true
    else if cmd.typ = "approve" ∧ cmd.args = ["cancel"] then some false
    else commandsVerdict rest

/-- One iteration of the `checkApproval` loop on a single comment: a
review state of Approved/Unapproved decides immediately, otherwise the
comment's extracted commands are scanned; `none` means the comment is
not decisive. -/
def commentVerdict (c : IssueComment) : Option Bool :=
  if c.reviewState = PullRequestReviewState.approved then some true
  else if c.reviewState = PullRequestReviewState.unapproved then some false
  else commandsVerdict (ExtractCommands c.comment.body)

/-- `checkApproval` (approve plugin): scan the comments in the given
(newest-first) order and return the first decisive comment's verdict,
defaulting to `false`. -/
def checkApproval : List IssueComment → Bool
  | [] => false
  | c :: rest =>
    match commentVerdict c with
    | some b => b
    | none => checkApproval rest

/-- A plain comment carrying `/approve cancel` (newest in the C1
scenario). -/
def approveCancelComment : IssueComment :=
  ⟨⟨1, "u1"⟩, ⟨"/approve cancel", 30⟩, ⟨none⟩, PullRequestReviewState.empty⟩

/-- A review event with state Approved (middle of the C1 scenario). -/
def approvedReviewComment : IssueComment :=
  ⟨⟨2, "u2"⟩, ⟨"looks good", 20⟩, ⟨none⟩, PullRequestReviewState.approved⟩

/-- A plain comment carrying `/approve` (oldest in the C1 scenario). -/
def approveComment : IssueComment :=
  ⟨⟨3, "u3"⟩, ⟨"/approve", 10⟩, ⟨none⟩, PullRequestReviewState.empty⟩

/-! ## The in-memory fake git provider (`pkg/git/fake`)

The fake provider's global `Repos` map becomes an explicit `Store`
value threaded through every operation.  Go maps become association
lists (first-match lookup and update); a nil map is `none`, an empty
map `some []`.  Operations that Go ends with `panic` (nil-pointer
dereference) return `GoRes.crash`. -/

/-- A Go error as the approval plugin distinguishes them: the typed
`*git.UnauthorizedError` versus every other error, whose `Error()`
text is the string the fake provider formatted. -/
inductive GitErr
  | unauthorized (user : String) (repo : String)
  | message (s : String)
deriving DecidableEq, Repr

/-- `Error()` text of an error.  The `UnauthorizedError.Error` body is
not part of this excerpt; its exact text is immaterial to every claim
(it is only ever tested for containing `"Label does not exist"`, which
it never does). -/
def GitErr.text : GitErr → String
  | .unauthorized u r => u ++ " is not authorized for " ++ r
  | .message s => s

/-- Outcome of a Go call: normal return, error return, or panic. -/
inductive GoRes (α : Type)
  | ok (a : α)
  | err (e : GitErr)
  | crash
deriving DecidableEq, Repr

/-- Replace the value at the first occurrence of key `k` (Go map
assignment for an existing key). -/
def updateA {κ β : Type} [BEq κ] : List (κ × β) → κ → β → List (κ × β)
  | [], _, _ => []
  | (k', v') :: rest, k, v =>
    if k' == k then (k, v) :: rest else (k', v') :: updateA rest k v

/-- `fake.Repo`: the per-repository storage the claims touch. -/
structure Repo where
  userCanWrite : Option (List (String × Bool))
  pullRequests : Option (List (Nat × PullRequest))
  comments : Option (List (Nat × List IssueComment))
deriving DecidableEq, Repr

/-- The fake provider's global state (`fake.Repos`). -/
structure Store where
  repos : Option (List (String × Repo))
deriving DecidableEq, Repr

/-- The pull request stored under repository `repoName` and id `id`. -/
def storePR (σ : Store) (repoName : String) (id : Nat) : Option PullRequest :=
  ((σ.repos.bind fun rs => rs.lookup repoName).bind fun r => r.pullRequests).bind
    fun prs => prs.lookup id

/-- Update one repository in place. -/
def Store.updateRepo (σ : Store) (repoName : String) (f : Repo → Repo) : Store :=
  ⟨σ.repos.map fun rs =>
    rs.map fun kv => if kv.1 == repoName then (kv.1, f kv.2) else kv⟩

/-- Write back a pull request (Go mutation through the stored pointer). -/
def Store.updatePR (σ : Store) (repoName : String) (id : Nat) (pr : PullRequest) : Store :=
  σ.updateRepo repoName fun r => { r with pullRequests := r.pullRequests.map (updateA · id pr) }

/-- `fake.Client.CanUserWriteToRepo`. -/
def CanUserWriteToRepo (σ : Store) (repoName : String) (user : User) : GoRes Bool :=
  match σ.repos with
  | none => .err (.message "repos not initialized")
  | some repos =>
    match repos.lookup repoName with
    | none => .err (.message "404 no such repository")
    | some repo =>
      match repo.userCanWrite with
      | none => .err (.message "userCanWrite not initialized")
      | some m =>
        match m.lookup user.name with
        | none => .err (.message "404 no such user")
        | some privilege => .ok privilege

/-- `fake.Client.SetLabel` (the issue-type argument is ignored by the
fake): appends the label to the stored PR's label list unconditionally. -/
def SetLabel (σ : Store) (repoName : String) (id : Nat) (label : String) : GoRes Store :=
  match σ.repos with
  | none => .err (.message "repos not initialized")
  | some repos =>
    match repos.lookup repoName with
    | none => .err (.message "404 no such repository")
    | some repo =>
      match repo.pullRequests with
      | none => .err (.message "pull requests not initialized")
      | some prs =>
        match prs.lookup id with
        | none => .err (.message "404 no such PR")
        | some pr =>
          .ok (σ.updatePR repoName id { pr with labels := pr.labels ++ [⟨label⟩] })

/-- `fake.DeleteLabel` (package-level, also the method's body): removes
the first label with the given name if present (the two Go slice
branches are both removal of index `idx`); absent label is a silent
no-op. -/
def DeleteLabel (σ : Store) (repoName : String) (id : Nat) (label : String) : GoRes Store :=
  match σ.repos with
  | none => .err (.message "repos not initialized")
  | some repos =>
    match repos.lookup repoName with
    | none => .err (.message "404 no such repository")
    | some repo =>
      match repo.pullRequests with
      | none => .err (.message "pull requests not initialized")
      | some prs =>
        match prs.lookup id with
        | none => .err (.message "404 no such PR")
        | some pr =>
          match pr.labels.findIdx? (fun l => l.name == label) with
          | none => .ok σ
          | some idx =>
            .ok (σ.updatePR repoName id { pr with labels := pr.labels.eraseIdx idx })

/-- The synthetic comment `fake.Client.RegisterComment` appends: body
and creation time set, every other field the Go zero value, and the
issue pointing at a PR that carries only the id. -/
def syntheticComment (issueNo : Nat) (body : String) (now : Nat) : IssueComment :=
  ⟨⟨0, ""⟩, ⟨body, now⟩,
    ⟨some ⟨issueNo, "", ⟨0, ""⟩, "", PullRequestState.unknown, PullRequestAction.other,
      false, [], []⟩⟩,
    PullRequestReviewState.empty⟩

/-- `fake.Client.RegisterComment`: appends to the comment slice under
the issue id (Go `append` on a possibly missing key). -/
def RegisterComment (σ : Store) (repoName : String) (issueNo : Nat) (body : String)
    (now : Nat) : GoRes Store :=
  match σ.repos with
  | none => .err (.message "repos not initialized")
  | some repos =>
    match repos.lookup repoName with
    | none => .err (.message "404 no such repository")
    | some repo =>
      match repo.comments with
      | none => .err (.message "comments not initialized")
      | some m =>
        let entry := syntheticComment issueNo body now
        let m' :=
          match m.lookup issueNo with
          | some cs => updateA m issueNo (cs ++ [entry])
          | none => m ++ [(issueNo, [entry])]
        .ok (σ.updateRepo repoName fun r => { r with comments := some m' })

/-- `fake.Client.ListLabels`: `return repo.PullRequests[id].Labels` —
a missing id (or nil map) yields a nil `*PullRequest` whose `.Labels`
dereference panics. -/
def ListLabels (σ : Store) (repoName : String) (id : Nat) : GoRes (List IssueLabel) :=
  match σ.repos with
  | none => .err (.message "repos not initialized")
  | some repos =>
    match repos.lookup repoName with
    | none => .err (.message "404 no such repository")
    | some repo =>
      match (repo.pullRequests.getD []).lookup id with
      | none => .crash
      | some pr => .ok pr.labels

/-- `fake.Client.ListComments`: a missing id yields the nil slice. -/
def ListComments (σ : Store) (repoName : String) (id : Nat) : GoRes (List IssueComment) :=
  match σ.repos with
  | none => .err (.message "repos not initialized")
  | some repos =>
    match repos.lookup repoName with
    | none => .err (.message "404 no such repository")
    | some repo => .ok (((repo.comments.getD []).lookup id).getD [])

/-! ## The approval plugin (`pkg/plugins/approve`)

Each handler is a pure function of the webhook data, the configuration,
the current time (for the comments the fake provider stamps) and the
fake store, returning the Go result, the new store, and the ordered
trace of remote git calls it made.  `utils.GetGitCli` (not part of this
excerpt) is modelled from the spec as successfully constructing the
provider client bound to the configuration's repository. -/

/-- The trace of remote git-provider calls a handler performs. -/
inductive RemoteOp
  | canUserWrite (user : String)
  | setLabel (id : Nat) (label : String)
  | deleteLabel (id : Nat) (label : String)
  | registerComment (id : Nat) (body : String)
  | listLabels (id : Nat)
  | listComments (id : Nat)
deriving DecidableEq, Repr

/-- `cicdv1.IntegrationConfig`: the fields the approval plugin reads
(`Spec.Git.Repository` and the nilable `Spec.Git.Token`). -/
structure IntegrationConfig where
  repository : String
  token : Option String
deriving DecidableEq, Repr

/-- The literal managed label name (`approvedLabel` constant). -/
def approvedLabel : String := "approved"

def generateUserUnauthorizedComment (user : String) : String :=
  "[APPROVE ALERT]\n\nUser `" ++ user ++ "` is not allowed to approve/cancel approve this pull request.\n\n"
    ++ "Users who meet the following conditions can approve the pull request.\n"
    ++ "- Not an author of the pull request\n"
    ++ "- (For GitHub) Have write permission on the repository\n"
    ++ "- (For GitLab) Be Developer, Maintainer, or Owner\n"

def generateApprovedComment (user : String) : String :=
  "[APPROVE ALERT]\n\nUser `" ++ user ++ "` approved this pull request!"

def generateApproveCanceledComment (user : String) : String :=
  "[APPROVE ALERT]\n\nUser `" ++ user ++ "` canceled the approval."

def generateHelpComment : String :=
  "[APPROVE ALERT]\n\nApprove comment is malformed\n\n"
    ++ "You can approve or cancel the approve the pull request by commenting...\n"
    ++ "- (For GitHub) `/approve`\n"
    ++ "- (For GitHub) `/approve cancel`\n"
    ++ "- (For GitLab) `/ci-approve`\n"
    ++ "- (For GitLab) `/ci-approve cancel`\n"

/-- `Handler.authorize`: the PR's author may not act, everyone else
needs write permission; the write-permission remote read happens only
when the author check passes. -/
def authorize (repoName : String) (sender author : User) (σ : Store) :
    GoRes Unit × List RemoteOp :=
  if sender.id = author.id then
    (.err (.unauthorized sender.name repoName), [])
  else
    match CanUserWriteToRepo σ repoName sender with
    | .err e => (.err e, [.canUserWrite sender.name])
    | .crash => (.crash, [.canUserWrite sender.name])
    | .ok true => (.ok (), [.canUserWrite sender.name])
    | .ok false => (.err (.unauthorized sender.name repoName), [.canUserWrite sender.name])

/-- `Handler.handleApproveCommand`: set the `approved` label, then post
the confirmation comment. -/
def handleApproveCommand (repoName : String) (issueComment : IssueComment) (now : Nat)
    (σ : Store) : GoRes Unit × Store × List RemoteOp :=
  match issueComment.issue.pullRequest with
  | none => (.crash, σ, [])
  | some pr =>
    match SetLabel σ repoName pr.id approvedLabel with
    | .err e => (.err e, σ, [.setLabel pr.id approvedLabel])
    | .crash => (.crash, σ, [.setLabel pr.id approvedLabel])
    | .ok σ1 =>
      let body := generateApprovedComment issueComment.author.name
      match RegisterComment σ1 repoName pr.id body now with
      | .err e => (.err e, σ1, [.setLabel pr.id approvedLabel, .registerComment pr.id body])
      | .crash => (.crash, σ1, [.setLabel pr.id approvedLabel, .registerComment pr.id body])
      | .ok σ2 => (.ok (), σ2, [.setLabel pr.id approvedLabel, .registerComment pr.id body])

/-- `Handler.handleApproveCancelCommand`: delete the `approved` label
(an error whose text contains `"Label does not exist"` is swallowed),
then post the cancellation comment. -/
def handleApproveCancelCommand (repoName : String) (issueComment : IssueComment) (now : Nat)
    (σ : Store) : GoRes Unit × Store × List RemoteOp :=
  match issueComment.issue.pullRequest with
  | none => (.crash, σ, [])
  | some pr =>
    let afterDelete : GoRes Store :=
      match DeleteLabel σ repoName pr.id approvedLabel with
      | .err e =>
        if hasSubstr e.text.data (String.data "Label does not exist") then .ok σ else .err e
      | other => other
    match afterDelete with
    | .err e => (.err e, σ, [.deleteLabel pr.id approvedLabel])
    | .crash => (.crash, σ, [.deleteLabel pr.id approvedLabel])
    | .ok σ1 =>
      let body := generateApproveCanceledComment issueComment.author.name
      match RegisterComment σ1 repoName pr.id body now with
      | .err e => (.err e, σ1, [.deleteLabel pr.id approvedLabel, .registerComment pr.id body])
      | .crash => (.crash, σ1, [.deleteLabel pr.id approvedLabel, .registerComment pr.id body])
      | .ok σ2 => (.ok (), σ2, [.deleteLabel pr.id approvedLabel, .registerComment pr.id body])

/-- `Handler.syncApproval`: converge label ← comment verdict. -/
def syncApproval (label comment : Bool) (repoName : String) (issueComment : IssueComment)
    (now : Nat) (σ : Store) : GoRes Unit × Store × List RemoteOp :=
  if comment && !label then handleApproveCommand repoName issueComment now σ
  else if !comment && label then handleApproveCancelCommand repoName issueComment now σ
  else (.ok (), σ, [])

/-- `Handler.handleApproveCheckCommand`: read labels and comments, sort
comments newest-first (`sort.Slice` with `CreatedAt.Before` reversed),
compute the comment verdict, and sync the label to it. -/
def handleApproveCheckCommand (repoName : String) (issueComment : IssueComment) (now : Nat)
    (σ : Store) : GoRes Unit × Store × List RemoteOp :=
  match issueComment.issue.pullRequest with
  | none => (.crash, σ, [])
  | some pr =>
    match ListLabels σ repoName pr.id with
    | .err e => (.err e, σ, [.listLabels pr.id])
    | .crash => (.crash, σ, [.listLabels pr.id])
    | .ok labels =>
      let approveLabel := labels.any (fun l => l.name == "approved")
      match ListComments σ repoName pr.id with
      | .err e => (.err e, σ, [.listLabels pr.id, .listComments pr.id])
      | .crash => (.crash, σ, [.listLabels pr.id, .listComments pr.id])
      | .ok comments =>
        let sorted := comments.mergeSort (fun a b => b.comment.createdAt ≤ a.comment.createdAt)
        let approvedComment := checkApproval sorted
        let (res, σ', tr) := syncApproval approveLabel approvedComment repoName issueComment now σ
        (res, σ', [.listLabels pr.id, .listComments pr.id] ++ tr)

/-- `Handler.handleLabelEvent`: on an `approved` label change, re-derive
label presence from the event's PR snapshot, authorize the sender, and
on an unauthorized sender revert the flip and post the rejection
comment. -/
def handleLabelEvent (sender : User) (pr? : Option PullRequest) (repoName : String)
    (now : Nat) (σ : Store) : GoRes Unit × Store × List RemoteOp :=
  match pr? with
  | none => (.crash, σ, [])
  | some pr =>
    if !(pr.labelChanged.any (fun l => l.name == approvedLabel)) then (.ok (), σ, [])
    else
      let isApprovedLabeled := pr.labels.any (fun l => l.name == approvedLabel)
      match authorize repoName sender pr.author σ with
      | (.ok _, tr) => (.ok (), σ, tr)
      | (.crash, tr) => (.crash, σ, tr)
      | (.err e, tr) =>
        match e with
        | .message m => (.err (.message m), σ, tr)
        | .unauthorized u _ =>
          let revert : GoRes Store × RemoteOp :=
            if isApprovedLabeled then
              (match DeleteLabel σ repoName pr.id approvedLabel with
               | .err e' =>
                 if hasSubstr e'.text.data (String.data "Label does not exist") then .ok σ
                 else .err e'
               | other => other,
               .deleteLabel pr.id approvedLabel)
            else
              (SetLabel σ repoName pr.id approvedLabel, .setLabel pr.id approvedLabel)
          match revert with
          | (.err e', op) => (.err e', σ, tr ++ [op])
          | (.crash, op) => (.crash, σ, tr ++ [op])
          | (.ok σ1, op) =>
            let body := generateUserUnauthorizedComment u
            match RegisterComment σ1 repoName pr.id body now with
            | .err e' => (.err e', σ1, tr ++ [op, .registerComment pr.id body])
            | .crash => (.crash, σ1, tr ++ [op, .registerComment pr.id body])
            | .ok σ2 => (.ok (), σ2, tr ++ [op, .registerComment pr.id body])

/-- `Handler.Handle`: the webhook entry point of the approval plugin.
A nil git token exits immediately; review events dispatch to the
approve/cancel paths, label events to `handleLabelEvent`. -/
def Handle (wh : Webhook) (ic : IntegrationConfig) (now : Nat) (σ : Store) :
    GoRes Unit × Store × List RemoteOp :=
  if ic.token = none then (.ok (), σ, [])
  else
    let isApproval? : Option Bool :=
      if wh.eventType = EventType.pullRequestReview then
        match wh.issueComment with
        | none => some false
        | some c =>
          match c.issue.pullRequest with
          | none => none
          | some pr =>
            some (pr.state = PullRequestState.opened ∧ c.reviewState ≠ PullRequestReviewState.empty)
      else some false
    match isApproval? with
    | none => (.crash, σ, [])
    | some isApproval =>
      let isLabeled : Bool :=
        decide (wh.eventType = EventType.pullRequest) &&
          (match wh.pullRequest with
           | some pr =>
             decide (pr.action = PullRequestAction.labeled ∨ pr.action = PullRequestAction.unlabeled)
           | none => false)
      if !isApproval && !isLabeled then (.ok (), σ, [])
      else if isLabeled then handleLabelEvent wh.sender wh.pullRequest ic.repository now σ
      else
        match wh.issueComment with
        | none => (.crash, σ, [])
        | some c =>
          match c.reviewState with
          | .approved => handleApproveCommand ic.repository c now σ
          | .unapproved => handleApproveCancelCommand ic.repository c now σ
          | .empty => (.ok (), σ, [])

/-- `Handler.HandleChatOps`: the chatops entry point.  Dereferences the
webhook's issue comment before any guard (a nil comment panics), skips
non-open or non-PR comments and nil tokens, authorizes, then dispatches
on the command's arguments. -/
def HandleChatOps (command : Command) (wh : Webhook) (config : IntegrationConfig)
    (now : Nat) (σ : Store) : GoRes Unit × Store × List RemoteOp :=
  match wh.issueComment with
  | none => (.crash, σ, [])
  | some issueComment =>
    match issueComment.issue.pullRequest with
    | none => (.ok (), σ, [])
    | some pr =>
      if pr.state ≠ PullRequestState.opened then (.ok (), σ, [])
      else if config.token = none then (.ok (), σ, [])
      else
        match authorize config.repository wh.sender pr.author σ with
        | (.crash, tr) => (.crash, σ, tr)
        | (.err e, tr) =>
          (match e with
           | .message m => (.err (.message m), σ, tr)
           | .unauthorized u _ =>
             let body := generateUserUnauthorizedComment u
             match RegisterComment σ config.repository pr.id body now with
             | .err e' => (.err e', σ, tr ++ [.registerComment pr.id body])
             | .crash => (.crash, σ, tr ++ [.registerComment pr.id body])
             | .ok σ1 => (.ok (), σ1, tr ++ [.registerComment pr.id body]))
        | (.ok _, tr) =>
          if command.args = [] then
            let (res, σ', tr') := handleApproveCommand config.repository issueComment now σ
            (res, σ', tr ++ tr')
          else if command.args = ["cancel"] then
            let (res, σ', tr') := handleApproveCancelCommand config.repository issueComment now σ
            (res, σ', tr ++ tr')
          else if command.args = ["check"] then
            let (res, σ', tr') := handleApproveCheckCommand config.repository issueComment now σ
            (res, σ', tr ++ tr')
          else
            match RegisterComment σ config.repository pr.id generateHelpComment now with
            | .err e' => (.err e', σ, tr ++ [.registerComment pr.id generateHelpComment])
            | .crash => (.crash, σ, tr ++ [.registerComment pr.id generateHelpComment])
            | .ok σ1 => (.ok (), σ1, tr ++ [.registerComment pr.id generateHelpComment])

/-! ## The job lifecycle reconciler (`controllers/integrationjob_controller.go`)

The reconcile pass is embedded as a pure function of the fetched job
and an oracle giving the outcome of every cluster-client call the pass
makes (`Patch`, the two `Get`s, `ReflectStatus`, `Status().Patch`).
The cluster side effects are recorded as an ordered trace of `K8sOp`
events (`scheduler.Notify`, metadata patch, status patch). -/

/-- Modelled from the spec: the controllers package's finalizer marker
constant, declared outside this excerpt; its literal value is
immaterial, only its identity matters. -/
def finalizer : String := "cicd.tmax.io/finalizer"

/-- `cicdv1.IntegrationJobStateFailed`.  Modelled from the spec's
"Failed state"; the api package carrying the literal is outside this
excerpt and only the constant's identity matters. -/
def IntegrationJobStateFailed : String := "Failed"

/-- `cicdv1.IntegrationJobStatus`: the fields the reconciler touches. -/
structure IntegrationJobStatus where
  state : String
  msg : String
  completionTime : Option Nat
deriving DecidableEq, Repr

/-- `cicdv1.IntegrationJob`: metadata (finalizer list, deletion
timestamp) plus status. -/
structure IntegrationJob where
  finalizers : List String
  deletionTimestamp : Option Nat
  status : IntegrationJobStatus
deriving DecidableEq, Repr

/-- One observable cluster side effect of a reconcile pass. -/
inductive K8sOp
  | notify
  | patchMeta (finalizers : List String)
  | patchStatus (st : IntegrationJobStatus)
deriving DecidableEq, Repr

/-- Outcome of the `r.Client.Get` for the PipelineRun: found, not found
(a valid state — the run may not exist yet), or a hard error. -/
inductive GetRunResult
  | found
  | notFound
  | failure (e : String)
deriving DecidableEq, Repr

/-- The oracle for one reconcile pass: outcomes of the cluster-client
calls and of the external collaborators.  `setDefaults` is
`instance.Status.SetDefaults` and `reflect` is
`pipelinemanager.ReflectStatus` (both outside this excerpt), taken as
arbitrary functions of the current status — the theorems hold for every
choice; `reflect` additionally sees whether the run was found. -/
structure ReconcileEnv where
  metaPatchErr : Option String
  getConfigErr : Option String
  getRun : GetRunResult
  setDefaults : IntegrationJobStatus → IntegrationJobStatus
  reflect : Bool → IntegrationJobStatus → Except String IntegrationJobStatus
  statusPatchErr : Option String

/-- Result of `handleFinalizer`: the (possibly mutated) job, the
cluster-op trace, the `exit` flag, and the returned error. -/
structure FinalizerResult where
  job : IntegrationJob
  trace : List K8sOp
  exit : Bool
  err : Option String
deriving Repr

/-- Go's swap-removal of the finalizer at index `idx`:
`fins[idx] = fins[last]; fins[last] = ""; fins = fins[:last]` (a single
entry becomes `nil`). -/
def removeSwap (l : List String) (idx : Nat) : List String :=
  if l.length = 1 then []
  else
    let last := l.length - 1
    (((l.set idx (l.getD last "")).set last "").take last)

/-- `integrationJobReconciler.handleFinalizer`. -/
def handleFinalizer (env : ReconcileEnv) (job : IntegrationJob) : FinalizerResult :=
  match job.finalizers.findIdx? (fun f => f == finalizer) with
  | none =>
    let inst := { job with finalizers := job.finalizers ++ [finalizer] }
    match env.metaPatchErr with
    | some e => ⟨inst, [.patchMeta inst.finalizers], false, some e⟩
    | none => ⟨inst, [.patchMeta inst.finalizers], true, none⟩
  | some idx =>
    if job.deletionTimestamp.isSome then
      let fins := removeSwap job.finalizers idx
      let inst := { job with finalizers := fins }
      match env.metaPatchErr with
      | some e => ⟨inst, [.notify, .patchMeta fins], false, some e⟩
      | none => ⟨inst, [.notify, .patchMeta fins], true, none⟩
    else
      ⟨job, [], false, none⟩

/-- `integrationJobReconciler.patchJobFailed`: force state and message,
then issue a status patch whose own failure is only logged. -/
def patchJobFailed (job : IntegrationJob) (message : String) :
    IntegrationJob × K8sOp :=
  let inst := { job with
    status := { job.status with state := IntegrationJobStateFailed, msg := message } }
  (inst, .patchStatus inst.status)

/-- Result of a reconcile pass: the in-memory job, the cluster-op
trace, and the error returned to the controller runtime. -/
structure ReconcileResult where
  job : IntegrationJob
  trace : List K8sOp
  err : Option String
deriving Repr

/-- `integrationJobReconciler.Reconcile`, from the point where the job
has been fetched: finalizer handling (whose error force-fails the job),
the terminal completion-time check, the deferred scheduler
notification, the config/run fetches and status reflection (whose
errors force-fail the job without propagating), and the final status
persist (whose error is returned). -/
def Reconcile (env : ReconcileEnv) (job : IntegrationJob) : ReconcileResult :=
  let fr := handleFinalizer env job
  match fr.err with
  | some e =>
    let (inst, op) := patchJobFailed fr.job e
    ⟨inst, fr.trace ++ [op], none⟩
  | none =>
    if fr.exit then ⟨fr.job, fr.trace, none⟩
    else if fr.job.status.completionTime.isSome then ⟨fr.job, fr.trace, none⟩
    else
      match env.getConfigErr with
      | some e =>
        let (inst, op) := patchJobFailed fr.job e
        ⟨inst, fr.trace ++ [op, .notify], none⟩
      | none =>
        match env.getRun with
        | .failure e =>
          let (inst, op) := patchJobFailed fr.job e
          ⟨inst, fr.trace ++ [op, .notify], none⟩
        | runRes =>
          let inst1 := { fr.job with status := env.setDefaults fr.job.status }
          match env.reflect (runRes = GetRunResult.found) inst1.status with
          | .error e =>
            let (inst, op) := patchJobFailed inst1 e
            ⟨inst, fr.trace ++ [op, .notify], none⟩
          | .ok st =>
            let inst2 := { inst1 with status := st }
            match env.statusPatchErr with
            | some e => ⟨inst2, fr.trace ++ [.patchStatus st, .notify], some e⟩
            | none => ⟨inst2, fr.trace ++ [.patchStatus st, .notify], none⟩

/-- The status patches contained in a trace. -/
def statusPatches (tr : List K8sOp) : List IntegrationJobStatus :=
  tr.filterMap fun op =>
    match op with
    | .patchStatus st => some st
    | _ => none

/-- The number of scheduler notifications in a trace. -/
def notifyCount (tr : List K8sOp) : Nat :=
  (tr.filter fun op => op == K8sOp.notify).length

/-! ## Helper views of the store, and concrete fixtures -/

/-- The repository stored under `repoName`. -/
def storeRepo (σ : Store) (repoName : String) : Option Repo :=
  σ.repos.bind (List.lookup repoName)

/-- The comment map of the repository stored under `repoName`. -/
def storeComments (σ : Store) (repoName : String) : Option (List (Nat × List IssueComment)) :=
  (storeRepo σ repoName).bind Repo.comments

/-- The effect of `fake.DeleteLabel` on a label list: remove the first
label with the given name, if any. -/
def eraseLabel (labels : List IssueLabel) (name : String) : List IssueLabel :=
  match labels.findIdx? (fun l => l.name == name) with
  | none => labels
  | some idx => labels.eraseIdx idx

/-- The label list of the stored PR after a label mutation, for stating
counterexamples. -/
def labelsAfter (r : GoRes Store) (repoName : String) (id : Nat) : Option (List IssueLabel) :=
  match r with
  | .ok σ => (storePR σ repoName id).map PullRequest.labels
  | _ => none

def aliceUser : User := ⟨100, "alice"⟩

def bobUser : User := ⟨101, "bob"⟩

def carolUser : User := ⟨102, "carol"⟩

/-- PR #7 by alice, already carrying the `approved` label, whose last
event changed that label. -/
def prFixture : PullRequest :=
  ⟨7, "Fix bug", aliceUser, "https://git.example.com/tmax/repo/pull/7",
    PullRequestState.opened, PullRequestAction.labeled, true,
    [⟨"approved"⟩], [⟨"approved"⟩]⟩

/-- A repository fixture: bob has write permission, carol does not. -/
def repoFixture : Repo :=
  ⟨some [("bob", true), ("carol", false)], some [(7, prFixture)], some [(7, [])]⟩

def storeFixture : Store := ⟨some [("tmax/repo", repoFixture)]⟩

/-- A `/approve` comment by bob on PR #7. -/
def commentFixture : IssueComment :=
  ⟨bobUser, ⟨"/approve", 50⟩, ⟨some prFixture⟩, PullRequestReviewState.empty⟩

/-- A webhook carrying bob's comment. -/
def whFixture : Webhook :=
  ⟨EventType.issueComment, bobUser, "https://git.example.com/tmax/repo", none,
    some commentFixture⟩

/-- A reconcile oracle on which every cluster call succeeds. -/
def envOk : ReconcileEnv :=
  ⟨none, none, GetRunResult.notFound, id, fun _ s => Except.ok s, none⟩

/-- A reconcile oracle whose metadata patch fails. -/
def envPatchFail : ReconcileEnv :=
  ⟨some "patch refused", none, GetRunResult.notFound, id, fun _ s => Except.ok s, none⟩

/-- A reconcile oracle whose config fetch fails. -/
def envCfgErr : ReconcileEnv :=
  ⟨none, some "boom", GetRunResult.notFound, id, fun _ s => Except.ok s, none⟩

/-- A job being deleted, carrying the finalizer marker first and two
other finalizers after it. -/
def jobDel : IntegrationJob :=
  ⟨[finalizer, "cleanup-a", "cleanup-b"], some 1, ⟨"", "", none⟩⟩

/-- A completed job still carrying the finalizer marker. -/
def jobDone : IntegrationJob :=
  ⟨[finalizer], none, ⟨"Succeeded", "", some 42⟩⟩

/-- A completed job without the finalizer marker. -/
def jobDoneNoFin : IntegrationJob :=
  ⟨[], none, ⟨"Succeeded", "all done", some 99⟩⟩

/-- A running job with the finalizer marker. -/
def jobActive : IntegrationJob :=
  ⟨[finalizer], none, ⟨"Running", "", none⟩⟩

/-! ### Lemmas about the string scanners -/

theorem hasSubstr_append_right (s t pat : List Char) (h : hasSubstr t pat = true) :
    hasSubstr (s ++ t) pat = true := by
  induction s with
  | nil => simpa using h
  | cons c s ih =>
    show hasSubstr (c :: (s ++ t)) pat = true
    rw [hasSubstr]
    simp [ih]

theorem goSplitAux_skip (c₀ : Char) (sep' A X acc : List Char) (fuel : Nat)
    (hA : ∀ a ∈ A, a ≠ c₀) (hfuel : A.length + X.length ≤ fuel) :
    goSplitAux (c₀ :: sep') fuel (A ++ X) acc
      = goSplitAux (c₀ :: sep') (fuel - A.length) X (A.reverse ++ acc) := by
  induction A generalizing fuel acc with
  | nil => simp
  | cons a A ih =>
    cases fuel with
    | zero => simp at hfuel
    | succ f =>
      have ha : a ≠ c₀ := hA a (by simp)
      have hpre : (c₀ :: sep').isPrefixOf (a :: (A ++ X)) = false := by
        rw [List.isPrefixOf_cons₂]
        simp [Ne.symm ha]
      show goSplitAux (c₀ :: sep') (f + 1) (a :: (A ++ X)) acc = _
      rw [goSplitAux, hpre]
      simp only [Bool.false_eq_true, if_false]
      rw [ih (a :: acc) f (fun x hx => hA x (by simp [hx])) (by simp at hfuel ⊢; omega)]
      simp [List.append_assoc]

theorem goSplitAux_all_ne (c₀ : Char) (sep' s acc : List Char) (fuel : Nat)
    (hs : ∀ a ∈ s, a ≠ c₀) (hfuel : s.length ≤ fuel) :
    goSplitAux (c₀ :: sep') fuel s acc = [acc.reverse ++ s] := by
  have h := goSplitAux_skip c₀ sep' s [] acc fuel (by simpa using hs) (by simpa using hfuel)
  rw [List.append_nil] at h
  rw [h, goSplitAux]
  simp

theorem goSplitChars_sep2_form (c₀ : Char) (A D T : List Char)
    (hA : ∀ a ∈ A, a ≠ c₀) (hD : ∀ a ∈ D, a ≠ c₀) (hT : ∀ a ∈ T, a ≠ c₀) :
    goSplitChars [c₀, c₀] (A ++ c₀ :: c₀ :: (D ++ T)) = [A, D ++ T] := by
  unfold goSplitChars
  rw [goSplitAux_skip c₀ [c₀] A _ [] _ hA (by simp)]
  have hf : (A ++ c₀ :: c₀ :: (D ++ T)).length - A.length
      = (D.length + T.length + 1) + 1 := by
    simp [List.length_append]
  rw [hf]
  rw [goSplitAux]
  have hpre : ([c₀, c₀] : List Char).isPrefixOf (c₀ :: c₀ :: (D ++ T)) = true := by
    rw [List.isPrefixOf_cons₂, List.isPrefixOf_cons₂]
    simp
  rw [hpre]
  simp only [if_true]
  rw [show ((c₀ :: (D ++ T)).drop (([c₀, c₀] : List Char).length - 1)) = D ++ T by simp]
  rw [goSplitAux_all_ne c₀ [c₀] (D ++ T) [] _
    (by intro a ha; rcases List.mem_append.1 ha with h | h; exact hD a h; exact hT a h)
    (by simp)]
  simp

theorem goSplitChars_dot_head (c₀ : Char) (D T : List Char)
    (hD : ∀ a ∈ D, a ≠ c₀) :
    ∃ r, goSplitChars [c₀] (D ++ c₀ :: T) = D :: r := by
  unfold goSplitChars
  rw [goSplitAux_skip c₀ [] D _ [] _ hD (by simp)]
  have hf : (D ++ c₀ :: T).length - D.length = T.length + 1 := by
    simp [List.length_append]
  rw [hf]
  rw [goSplitAux]
  have hpre : ([c₀] : List Char).isPrefixOf (c₀ :: T) = true := by
    rw [List.isPrefixOf_cons₂]
    simp
  rw [hpre]
  simp only [if_true]
  refine ⟨goSplitAux [c₀] T.length (T.drop (([c₀] : List Char).length - 1)) [], ?_⟩
  simp

theorem goSplitAux_ne_nil (sep : List Char) :
    ∀ (fuel : Nat) (s acc : List Char), goSplitAux sep fuel s acc ≠ [] := by
  intro fuel
  induction fuel with
  | zero => intro s acc; cases s <;> simp [goSplitAux]
  | succ f ih =>
    intro s acc
    cases s with
    | nil => simp [goSplitAux]
    | cons c rest =>
      rw [goSplitAux]
      by_cases h : sep.isPrefixOf (c :: rest) = true
      · simp [h]
      · simp only [Bool.not_eq_true] at h
        simp [h, ih]

theorem goSplitAux_two_le (sep : List Char) (hsep : sep ≠ []) :
    ∀ (fuel : Nat) (s acc : List Char), s.length ≤ fuel → hasSubstr s sep = true →
      2 ≤ (goSplitAux sep fuel s acc).length := by
  intro fuel
  induction fuel with
  | zero =>
    intro s acc hlen hsub
    cases s with
    | nil => rw [hasSubstr] at hsub; simp [List.isEmpty_iff] at hsub; exact absurd hsub hsep
    | cons c rest => simp at hlen
  | succ f ih =>
    intro s acc hlen hsub
    cases s with
    | nil => rw [hasSubstr] at hsub; simp [List.isEmpty_iff] at hsub; exact absurd hsub hsep
    | cons c rest =>
      rw [goSplitAux]
      by_cases h : sep.isPrefixOf (c :: rest) = true
      · simp only [h, if_true, List.length_cons]
        have := goSplitAux_ne_nil sep f (rest.drop (sep.length - 1)) []
        have : 1 ≤ (goSplitAux sep f (rest.drop (sep.length - 1)) []).length := by
          cases hgo : goSplitAux sep f (rest.drop (sep.length - 1)) [] with
          | nil => exact absurd hgo this
          | cons x xs => simp
        omega
      · simp only [Bool.not_eq_true] at h
        rw [hasSubstr, h] at hsub
        simp only [Bool.false_or] at hsub
        simp only [h, Bool.false_eq_true, if_false]
        exact ih rest (c :: acc) (by simp at hlen; omega) hsub

/-! ### Decimal digits -/

theorem digitVal_digitChar (d : Nat) (h : d < 10) : digitVal (digitChar d) = d := by
  interval_cases d <;> rfl

theorem isDigitCh_digitChar (d : Nat) (h : d < 10) : isDigitCh (digitChar d) = true := by
  interval_cases d <;> rfl

theorem digitChar_ne (d : Nat) (h : d < 10) :
    digitChar d ≠ ':' ∧ digitChar d ≠ '.' ∧ digitChar d ≠ '+' ∧ digitChar d ≠ '-' := by
  interval_cases d <;> refine ⟨by decide, by decide, by decide, by decide⟩

theorem natStr_facts (n : Nat) :
    ∀ c ∈ natStr n, isDigitCh c = true ∧ c ≠ ':' ∧ c ≠ '.' ∧ c ≠ '+' ∧ c ≠ '-' := by
  intro c hc
  unfold natStr at hc
  by_cases h0 : n = 0
  · simp [h0] at hc
    subst hc
    refine ⟨by rfl, by decide, by decide, by decide, by decide⟩
  · simp [h0] at hc
    obtain ⟨d, hd, rfl⟩ := hc
    have hd10 : d < 10 := Nat.digits_lt_base (by norm_num) hd
    obtain ⟨h1, h2, h3, h4⟩ := digitChar_ne d hd10
    exact ⟨isDigitCh_digitChar d hd10, h1, h2, h3, h4⟩

theorem natStr_ne_nil (n : Nat) : natStr n ≠ [] := by
  unfold natStr
  by_cases h0 : n = 0
  · simp [h0]
  · simp [h0, Nat.digits_ne_nil_iff_ne_zero.2 h0]

theorem foldl_reverse_digits (L : List Nat) (hL : ∀ d ∈ L, d < 10) (acc : Nat) :
    ((L.reverse.map digitChar).foldl (fun a c => a * 10 + digitVal c) acc)
      = acc * 10 ^ L.length + Nat.ofDigits 10 L := by
  induction L generalizing acc with
  | nil => simp [Nat.ofDigits]
  | cons d L ih =>
    have hd : d < 10 := hL d (by simp)
    rw [List.reverse_cons, List.map_append, List.foldl_append]
    rw [ih (fun x hx => hL x (by simp [hx])) acc]
    simp only [List.map_cons, List.map_nil, List.foldl_cons, List.foldl_nil]
    rw [digitVal_digitChar d hd, Nat.ofDigits_cons]
    simp only [List.length_cons, pow_succ]
    ring

theorem parseDigits_natStr (n : Nat) : parseDigits (natStr n) = some n := by
  by_cases h0 : n = 0
  · subst h0; rfl
  · unfold parseDigits
    rw [if_pos]
    · congr 1
      unfold natStr
      rw [if_neg h0]
      rw [foldl_reverse_digits (Nat.digits 10 n) (fun d hd => Nat.digits_lt_base (by norm_num) hd) 0]
      simp [Nat.ofDigits_digits]
    · refine ⟨natStr_ne_nil n, ?_⟩
      rw [List.all_eq_true]
      intro c hc
      exact ((natStr_facts n) c hc).1

theorem atoi_natStr (n : Nat) (h : n < 2 ^ 63) : atoi (natStr n) = some (Int.ofNat n) := by
  cases hns : natStr n with
  | nil => exact absurd hns (natStr_ne_nil n)
  | cons c cs =>
    have hc := natStr_facts n c (hns ▸ List.mem_cons_self c cs)
    rw [atoi]
    rw [if_neg hc.2.2.2.1, if_neg hc.2.2.2.2]
    rw [← hns, parseDigits_natStr n]
    simp only [Option.some_bind]
    rw [if_pos h]

/-! ### Claim C7 and C8 theorems -/

/-- C7 (corrected): `CheckRateLimitGetResetTime` returns `0` without
failing for the nil error and for every error whose text does not
contain the phrase `"Rate limit exceeded"`, and never fails when the
text also contains a `"::"` separator; but (see the counterexample) an
error whose text contains the phrase without any `"::"` makes the Go
code panic on `strings.Split(strErr, "::")[1]`, so "never fails on any
non-matching error" does not hold as claimed. -/
theorem checkRateLimit_nonmatching_total :
    CheckRateLimitGetResetTime none = .ok 0
    ∧ (∀ msg : String, hasSubstr msg.data rateLimitPhrase.data = false →
        CheckRateLimitGetResetTime (some msg) = .ok 0)
    ∧ (∀ msg : String, hasSubstr msg.data (String.data "::") = true →
        CheckRateLimitGetResetTime (some msg) ≠ .error ()) := by
  refine ⟨rfl, ?_, ?_⟩
  · intro msg hmsg
    rw [CheckRateLimitGetResetTime, hmsg]
    simp
  · intro msg hmsg
    rw [CheckRateLimitGetResetTime]
    by_cases hph : hasSubstr msg.data rateLimitPhrase.data
    · simp only [hph, if_true]
      have h2 : 2 ≤ (goSplit msg "::").length := by
        unfold goSplit goSplitChars
        exact goSplitAux_two_le (String.data "::") (by decide) msg.data.length msg.data []
          (Nat.le_refl _) hmsg
      cases hsp : goSplit msg "::" with
      | nil => rw [hsp] at h2; simp at h2
      | cons a rest =>
        cases rest with
        | nil => rw [hsp] at h2; simp at h2
        | cons b rest' =>
          split <;> split <;> simp
    · simp only [Bool.not_eq_true] at hph
      simp [hph]

/-- C7 counterexample: the error text `"Rate limit exceeded"` does not
match the wire convention (it has no `"::"` marker), yet the extractor
does not return zero — it panics (index out of range), modelled as
`.error ()`. -/
theorem checkRateLimit_phrase_no_marker_panics :
    CheckRateLimitGetResetTime (some "Rate limit exceeded") = .error () := by rfl

/-- C7 witness: the amended theorem applied to a concrete non-matching
error text. -/
theorem checkRateLimit_nonmatching_total_witness :
    CheckRateLimitGetResetTime (some "connection refused") = .ok 0 :=
  checkRateLimit_nonmatching_total.2.1 "connection refused" (by rfl)

/-- C8: for every reset epoch in the 64-bit integer range, the error
text the fake provider constructs (`"unixtime::<epoch>. Rate limit
exceeded, …"`) round-trips: `CheckRateLimitGetResetTime` recovers
exactly the epoch, and `GetGapTime` applied to the epoch returns the
epoch minus the current unix time. -/
theorem rateLimit_roundtrip (n : Nat) (now : Int) (h : n < 2 ^ 63) :
    CheckRateLimitGetResetTime (some (rateLimitMessage n)) = .ok (Int.ofNat n)
    ∧ GetGapTime (Int.ofNat n) now = Int.ofNat n - now := by
  refine ⟨?_, rfl⟩
  have hdata : (rateLimitMessage n).data
      = String.data "unixtime" ++ ':' :: ':' :: (natStr n ++ rateLimitTail.data) := by
    show (("unixtime::" ++ String.mk (natStr n) ++ rateLimitTail)).data = _
    rw [String.data_append, String.data_append]
    show String.data "unixtime::" ++ natStr n ++ rateLimitTail.data = _
    rw [show String.data "unixtime::" = String.data "unixtime" ++ [':', ':'] from rfl]
    simp
  have hD := natStr_facts n
  have hT : ∀ a ∈ rateLimitTail.data, a ≠ ':' := by decide
  have hsub : hasSubstr (rateLimitMessage n).data rateLimitPhrase.data = true := by
    rw [hdata]
    rw [show String.data "unixtime" ++ ':' :: ':' :: (natStr n ++ rateLimitTail.data)
        = (String.data "unixtime" ++ ':' :: ':' :: natStr n) ++ rateLimitTail.data by simp]
    exact hasSubstr_append_right _ _ _ (by rfl)
  rw [CheckRateLimitGetResetTime, hsub]
  simp only [if_true]
  have hsplit : goSplit (rateLimitMessage n) "::"
      = [String.data "unixtime", natStr n ++ rateLimitTail.data] := by
    unfold goSplit
    rw [hdata]
    rw [show String.data "::" = [':', ':'] from rfl]
    exact goSplitChars_sep2_form ':' (String.data "unixtime") (natStr n) rateLimitTail.data
      (by decide) (fun a ha => (hD a ha).2.1) hT
  rw [hsplit]
  have htail : rateLimitTail.data
      = '.' :: (String.data " Rate limit exceeded, code 403. Please increase the limit or wait until reset") := by
    rfl
  obtain ⟨r, hr⟩ := goSplitChars_dot_head '.'
    (natStr n) (String.data " Rate limit exceeded, code 403. Please increase the limit or wait until reset")
    (fun a ha => (hD a ha).2.2.1)
  have hsecond : (goSplitChars ['.'] (natStr n ++ rateLimitTail.data)).headD [] = natStr n := by
    rw [htail, hr]
    simp
  show (match atoi ((goSplitChars ['.'] (natStr n ++ rateLimitTail.data)).headD []) with
        | some tm => Except.ok tm
        | none => Except.ok 0) = Except.ok (Int.ofNat n)
  rw [hsecond, atoi_natStr n h]

/-- C8 witness: the round-trip theorem applied at the concrete epoch
`1609459200`. -/
theorem rateLimit_roundtrip_witness :
    (1609459200 : Nat) < 2 ^ 63
    ∧ (CheckRateLimitGetResetTime (some (rateLimitMessage 1609459200)) = .ok (Int.ofNat 1609459200)
      ∧ GetGapTime (Int.ofNat 1609459200) 7 = Int.ofNat 1609459200 - 7) :=
  ⟨by norm_num, rateLimit_roundtrip 1609459200 7 (by norm_num)⟩

/-! ### Claim C1 -/

/-- C1: the verdict `checkApproval` computes over a newest-first comment
list is decided by the newest decisive comment alone: any run of
non-decisive comments before the first decisive one is skipped, the
first decisive comment's verdict is returned no matter what older
comments follow, a list with no decisive comment yields `false`, and on
the concrete newest-first list [`/approve cancel`, review-state
Approved, `/approve`] the verdict is `false`.  (A comment is decisive
exactly when `commentVerdict` — a review state of Approved/Unapproved,
or a first extracted `/approve` / `/approve cancel` command — yields a
verdict.) -/
theorem checkApproval_newest_decisive
    (pre rest : List IssueComment) (c : IssueComment) (b : Bool)
    (hpre : ∀ x ∈ pre, commentVerdict x = none)
    (hc : commentVerdict c = some b) :
    checkApproval (pre ++ c :: rest) = b
    ∧ (∀ cs : List IssueComment, (∀ x ∈ cs, commentVerdict x = none) → checkApproval cs = false)
    ∧ checkApproval [approveCancelComment, approvedReviewComment, approveComment] = false := by
  refine ⟨?_, ?_, by rfl⟩
  · induction pre with
    | nil => rw [List.nil_append, checkApproval, hc]
    | cons p pre ih =>
      rw [List.cons_append, checkApproval, hpre p (by simp)]
      exact ih (fun x hx => hpre x (by simp [hx]))
  · intro cs hcs
    induction cs with
    | nil => rfl
    | cons x cs ih =>
      rw [checkApproval, hcs x (by simp)]
      exact ih (fun y hy => hcs y (by simp [hy]))

/-- C1 witness: the theorem applied to the concrete scenario list, with
the `/approve cancel` comment as the newest decisive comment. -/
theorem checkApproval_newest_decisive_witness :
    (∀ x ∈ ([] : List IssueComment), commentVerdict x = none)
    ∧ commentVerdict approveCancelComment = some false
    ∧ checkApproval ([] ++ approveCancelComment :: [approvedReviewComment, approveComment]) = false :=
  ⟨fun x hx => absurd hx (List.not_mem_nil x),
   by rfl,
   (checkApproval_newest_decisive [] [approvedReviewComment, approveComment]
      approveCancelComment false (fun x hx => absurd hx (List.not_mem_nil x)) (by rfl)).1⟩

/-! ### Store bookkeeping lemmas -/

theorem lookup_updateA {κ β : Type} [BEq κ] [LawfulBEq κ]
    (m : List (κ × β)) (k : κ) (v w : β) (h : m.lookup k = some w) :
    (updateA m k v).lookup k = some v := by
  induction m with
  | nil => simp at h
  | cons kv rest ih =>
    obtain ⟨k', v'⟩ := kv
    by_cases hk : k = k'
    · subst hk
      rw [updateA, if_pos (by simp)]
      simp
    · have hbeq : (k == k') = false := beq_eq_false_iff_ne.2 hk
      have hbeq' : (k' == k) = false := beq_eq_false_iff_ne.2 (fun he => hk he.symm)
      rw [List.lookup_cons, hbeq] at h
      simp only [] at h
      rw [updateA, if_neg (by simp [hbeq'])]
      rw [List.lookup_cons, hbeq]
      exact ih h

theorem lookup_mapIf {κ β : Type} [BEq κ] [LawfulBEq κ]
    (rs : List (κ × β)) (name : κ) (f : β → β) (r : β)
    (h : rs.lookup name = some r) :
    (rs.map fun kv => if kv.1 == name then (kv.1, f kv.2) else kv).lookup name
      = some (f r) := by
  induction rs with
  | nil => simp at h
  | cons kv rest ih =>
    obtain ⟨k', v'⟩ := kv
    by_cases hk : name = k'
    · subst hk
      rw [List.lookup_cons] at h
      simp at h
      subst h
      rw [List.map_cons, if_pos (by simp)]
      simp
    · have hbeq : (name == k') = false := beq_eq_false_iff_ne.2 hk
      have hbeq' : (k' == name) = false := beq_eq_false_iff_ne.2 (fun he => hk he.symm)
      rw [List.lookup_cons, hbeq] at h
      simp only [] at h
      rw [List.map_cons, if_neg (by simp [hbeq'])]
      rw [List.lookup_cons, hbeq]
      exact ih h

theorem storeRepo_updateRepo (σ : Store) (rn : String) (f : Repo → Repo) (r : Repo)
    (h : storeRepo σ rn = some r) :
    storeRepo (σ.updateRepo rn f) rn = some (f r) := by
  cases hrs : σ.repos with
  | none => rw [storeRepo, hrs] at h; simp at h
  | some rs =>
    rw [storeRepo, hrs] at h
    simp only [Option.some_bind] at h
    rw [storeRepo, Store.updateRepo, hrs]
    simp only [Option.map_some, Option.some_bind]
    exact lookup_mapIf rs rn f r h

theorem storePR_eq (σ : Store) (rn : String) (id : Nat) :
    storePR σ rn id
      = ((storeRepo σ rn).bind Repo.pullRequests).bind (List.lookup id) := rfl

theorem storePR_updatePR (σ : Store) (rn : String) (id : Nat) (pr' : PullRequest)
    (repo0 : Repo) (prs0 : List (Nat × PullRequest)) (prStored : PullRequest)
    (hrepo : storeRepo σ rn = some repo0)
    (hprs : repo0.pullRequests = some prs0)
    (hlook : prs0.lookup id = some prStored) :
    storeRepo (σ.updatePR rn id pr') rn
        = some { repo0 with pullRequests := some (updateA prs0 id pr') }
    ∧ storePR (σ.updatePR rn id pr') rn id = some pr' := by
  have h1 := storeRepo_updateRepo σ rn
    (fun r => { r with pullRequests := r.pullRequests.map (updateA · id pr') }) repo0 hrepo
  beta_reduce at h1
  rw [hprs] at h1
  simp only [Option.map_some'] at h1
  refine ⟨h1, ?_⟩
  rw [storePR_eq, Store.updatePR, h1]
  simp only [Option.some_bind]
  exact lookup_updateA prs0 id pr' prStored hlook

/-! ### Effect lemmas for the fake label/comment operations -/

theorem SetLabel_effect (σ : Store) (rn : String) (id : Nat) (label : String)
    (repo0 : Repo) (prs0 : List (Nat × PullRequest)) (prStored : PullRequest)
    (hrepo : storeRepo σ rn = some repo0)
    (hprs : repo0.pullRequests = some prs0)
    (hlook : prs0.lookup id = some prStored) :
    ∃ σ1 : Store, SetLabel σ rn id label = GoRes.ok σ1
      ∧ storePR σ1 rn id = some { prStored with labels := prStored.labels ++ [⟨label⟩] }
      ∧ storeComments σ1 rn = storeComments σ rn := by
  cases hrs : σ.repos with
  | none => rw [storeRepo, hrs] at hrepo; simp at hrepo
  | some rs =>
    rw [storeRepo, hrs] at hrepo
    simp only [Option.some_bind] at hrepo
    have hset : SetLabel σ rn id label
        = GoRes.ok (σ.updatePR rn id { prStored with labels := prStored.labels ++ [⟨label⟩] }) := by
      simp only [SetLabel, hrs, hrepo, hprs, hlook]
    obtain ⟨hr1, hp1⟩ := storePR_updatePR σ rn id
      { prStored with labels := prStored.labels ++ [⟨label⟩] } repo0 prs0 prStored
      (by rw [storeRepo, hrs]; simpa using hrepo) hprs hlook
    refine ⟨_, hset, hp1, ?_⟩
    rw [storeComments, hr1, storeComments, storeRepo, hrs]
    simp [hrepo]

theorem DeleteLabel_effect (σ : Store) (rn : String) (id : Nat) (label : String)
    (repo0 : Repo) (prs0 : List (Nat × PullRequest)) (prStored : PullRequest)
    (hrepo : storeRepo σ rn = some repo0)
    (hprs : repo0.pullRequests = some prs0)
    (hlook : prs0.lookup id = some prStored) :
    ∃ σ1 : Store, DeleteLabel σ rn id label = GoRes.ok σ1
      ∧ storePR σ1 rn id = some { prStored with labels := eraseLabel prStored.labels label }
      ∧ storeComments σ1 rn = storeComments σ rn := by
  cases hrs : σ.repos with
  | none => rw [storeRepo, hrs] at hrepo; simp at hrepo
  | some rs =>
    rw [storeRepo, hrs] at hrepo
    simp only [Option.some_bind] at hrepo
    cases hidx : prStored.labels.findIdx? (fun l => l.name == label) with
    | none =>
      have hdel : DeleteLabel σ rn id label = GoRes.ok σ := by
        simp only [DeleteLabel, hrs, hrepo, hprs, hlook, hidx]
      have heq : eraseLabel prStored.labels label = prStored.labels := by
        rw [eraseLabel, hidx]
      refine ⟨σ, hdel, ?_, rfl⟩
      rw [show ({ prStored with labels := eraseLabel prStored.labels label }) = prStored from by
        rw [heq]]
      rw [storePR_eq, storeRepo, hrs]
      simp [hrepo, hprs, hlook]
    | some idx =>
      have hdel : DeleteLabel σ rn id label
          = GoRes.ok (σ.updatePR rn id { prStored with labels := prStored.labels.eraseIdx idx }) := by
        simp only [DeleteLabel, hrs, hrepo, hprs, hlook, hidx]
      obtain ⟨hr1, hp1⟩ := storePR_updatePR σ rn id
        { prStored with labels := prStored.labels.eraseIdx idx } repo0 prs0 prStored
        (by rw [storeRepo, hrs]; simpa using hrepo) hprs hlook
      refine ⟨_, hdel, ?_, ?_⟩
      · rw [hp1, eraseLabel, hidx]
      · rw [storeComments, hr1, storeComments, storeRepo, hrs]
        simp [hrepo]

theorem RegisterComment_effect (σ : Store) (rn : String) (issueNo : Nat) (body : String)
    (now : Nat) (repo0 : Repo) (cm0 : List (Nat × List IssueComment))
    (hrepo : storeRepo σ rn = some repo0)
    (hcm : repo0.comments = some cm0) :
    ∃ σ2 : Store, RegisterComment σ rn issueNo body now = GoRes.ok σ2
      ∧ ∀ id' : Nat, storePR σ2 rn id' = storePR σ rn id' := by
  cases hrs : σ.repos with
  | none => rw [storeRepo, hrs] at hrepo; simp at hrepo
  | some rs =>
    rw [storeRepo, hrs] at hrepo
    simp only [Option.some_bind] at hrepo
    have hreg : RegisterComment σ rn issueNo body now
        = GoRes.ok (σ.updateRepo rn fun r => { r with comments := some (
            match cm0.lookup issueNo with
            | some cs => updateA cm0 issueNo (cs ++ [syntheticComment issueNo body now])
            | none => cm0 ++ [(issueNo, [syntheticComment issueNo body now])]) }) := by
      simp only [RegisterComment, hrs, hrepo, hcm]
    refine ⟨_, hreg, ?_⟩
    intro id'
    have h1 := storeRepo_updateRepo σ rn
      (fun r => { r with comments := some (
        match cm0.lookup issueNo with
        | some cs => updateA cm0 issueNo (cs ++ [syntheticComment issueNo body now])
        | none => cm0 ++ [(issueNo, [syntheticComment issueNo body now])]) }) repo0
      (by rw [storeRepo, hrs]; simpa using hrepo)
    rw [storePR_eq, h1, storePR_eq, storeRepo, hrs]
    simp [hrepo]

/-! ### Claims C4, C9, C10 -/

/-- C4 (corrected): on every store containing the PR, deleting a label
absent from the PR's label list returns no error and leaves the store
unchanged; but `SetLabel` appends unconditionally — it never errors
under these hypotheses and always appends the label, so setting an
already-present label duplicates it in the label list (a multiset, not
a set, under `SetLabel`; see the counterexample). -/
theorem label_ops_amended (σ : Store) (rn : String) (id : Nat) (label : String)
    (repo0 : Repo) (prs0 : List (Nat × PullRequest)) (pr : PullRequest)
    (hrepo : storeRepo σ rn = some repo0)
    (hprs : repo0.pullRequests = some prs0)
    (hlook : prs0.lookup id = some pr) :
    ((∀ l ∈ pr.labels, l.name ≠ label) → DeleteLabel σ rn id label = GoRes.ok σ)
    ∧ (∃ σ1 : Store, SetLabel σ rn id label = GoRes.ok σ1
        ∧ storePR σ1 rn id = some { pr with labels := pr.labels ++ [⟨label⟩] }) := by
  constructor
  · intro habs
    have hidx : pr.labels.findIdx? (fun l => l.name == label) = none := by
      rw [List.findIdx?_eq_none_iff]
      intro l hl
      simp only [beq_eq_false_iff_ne]
      exact habs l hl
    cases hrs : σ.repos with
    | none => rw [storeRepo, hrs] at hrepo; simp at hrepo
    | some rs =>
      rw [storeRepo, hrs] at hrepo
      simp only [Option.some_bind] at hrepo
      simp only [DeleteLabel, hrs, hrepo, hprs, hlook, hidx]
  · obtain ⟨σ1, hset, hp, _⟩ := SetLabel_effect σ rn id label repo0 prs0 pr hrepo hprs hlook
    exact ⟨σ1, hset, hp⟩

/-- C4 counterexample: on the fixture store PR #7 already carries the
`approved` label; `SetLabel` of `approved` yields a duplicated entry,
refuting "setting a label that is already present leaves the label set
without duplicates". -/
theorem setLabel_duplicate_counterexample :
    labelsAfter (SetLabel storeFixture "tmax/repo" 7 "approved") "tmax/repo" 7
      = some [⟨"approved"⟩, ⟨"approved"⟩] := by rfl

/-- C4 witness: the amended theorem applied to the fixture store, with
an absent label for the delete half and the present `approved` label
for the set half. -/
theorem label_ops_amended_witness :
    DeleteLabel storeFixture "tmax/repo" 7 "lgtm" = GoRes.ok storeFixture
    ∧ (∃ σ1 : Store, SetLabel storeFixture "tmax/repo" 7 "approved" = GoRes.ok σ1
        ∧ storePR σ1 "tmax/repo" 7
            = some { prFixture with labels := prFixture.labels ++ [⟨"approved"⟩] }) :=
  ⟨(label_ops_amended storeFixture "tmax/repo" 7 "lgtm" repoFixture [(7, prFixture)]
      prFixture rfl rfl rfl).1 (by decide),
   (label_ops_amended storeFixture "tmax/repo" 7 "approved" repoFixture [(7, prFixture)]
      prFixture rfl rfl rfl).2⟩

/-- C5: when authorization fails as Unauthorized on a label-changed
event for the `approved` label — the sender is the PR's author or
lacks write permission — the handler returns nil after reverting the
flip and then posting the rejection comment, in that order: if
`approved` is present in the event's label snapshot it is deleted from
the store, otherwise it is restored, and the trace shows the
write-permission read (when reached), then exactly one label mutation
(the revert), then the comment post — no other remote label mutation. -/
theorem handleLabelEvent_unauthorized_revert
    (sender : User) (pr : PullRequest) (repoName : String) (now : Nat) (σ : Store)
    (repo0 : Repo) (prs0 : List (Nat × PullRequest)) (prStored : PullRequest)
    (cm0 : List (Nat × List IssueComment))
    (hrepo : storeRepo σ repoName = some repo0)
    (hprs : repo0.pullRequests = some prs0)
    (hlook : prs0.lookup pr.id = some prStored)
    (hcm : repo0.comments = some cm0)
    (hchanged : (pr.labelChanged.any fun l => l.name == approvedLabel) = true)
    (hauth : sender.id = pr.author.id ∨
      (sender.id ≠ pr.author.id ∧ CanUserWriteToRepo σ repoName sender = GoRes.ok false)) :
    ∃ σ' : Store,
      handleLabelEvent sender (some pr) repoName now σ
        = (GoRes.ok (), σ',
            (if sender.id = pr.author.id then [] else [RemoteOp.canUserWrite sender.name])
              ++ [(if pr.labels.any (fun l => l.name == approvedLabel) then
                     RemoteOp.deleteLabel pr.id approvedLabel
                   else RemoteOp.setLabel pr.id approvedLabel),
                  RemoteOp.registerComment pr.id (generateUserUnauthorizedComment sender.name)])
      ∧ storePR σ' repoName pr.id
          = some { prStored with labels :=
              (if pr.labels.any (fun l => l.name == approvedLabel) then
                 eraseLabel prStored.labels approvedLabel
               else prStored.labels ++ [⟨approvedLabel⟩]) } := by
  have hauthres : authorize repoName sender pr.author σ
      = (GoRes.err (GitErr.unauthorized sender.name repoName),
         if sender.id = pr.author.id then [] else [RemoteOp.canUserWrite sender.name]) := by
    rcases hauth with h | ⟨hne, hw⟩
    · simp [authorize, h]
    · simp [authorize, hne, hw]
  have hscσ : storeComments σ repoName = some cm0 := by
    rw [storeComments, hrepo]
    simpa using hcm
  cases hl : pr.labels.any (fun l => l.name == approvedLabel) with
  | true =>
    obtain ⟨σ1, hdel, hp1, hcomm1⟩ :=
      DeleteLabel_effect σ repoName pr.id approvedLabel repo0 prs0 prStored hrepo hprs hlook
    have hsc : storeComments σ1 repoName = some cm0 := by rw [hcomm1, hscσ]
    cases hsr1 : storeRepo σ1 repoName with
    | none => rw [storeComments, hsr1] at hsc; simp at hsc
    | some repo1 =>
      have hcm1 : repo1.comments = some cm0 := by
        rw [storeComments, hsr1] at hsc
        simpa using hsc
      obtain ⟨σ2, hreg, hpres⟩ := RegisterComment_effect σ1 repoName pr.id
        (generateUserUnauthorizedComment sender.name) now repo1 cm0 hsr1 hcm1
      refine ⟨σ2, ?_, ?_⟩
      · simp only [handleLabelEvent, hchanged, Bool.not_true, Bool.false_eq_true, if_false,
          hauthres, hl, if_true, hdel, hreg]
      · rw [hpres, hp1]
        simp
  | false =>
    obtain ⟨σ1, hset, hp1, hcomm1⟩ :=
      SetLabel_effect σ repoName pr.id approvedLabel repo0 prs0 prStored hrepo hprs hlook
    have hsc : storeComments σ1 repoName = some cm0 := by rw [hcomm1, hscσ]
    cases hsr1 : storeRepo σ1 repoName with
    | none => rw [storeComments, hsr1] at hsc; simp at hsc
    | some repo1 =>
      have hcm1 : repo1.comments = some cm0 := by
        rw [storeComments, hsr1] at hsc
        simpa using hsc
      obtain ⟨σ2, hreg, hpres⟩ := RegisterComment_effect σ1 repoName pr.id
        (generateUserUnauthorizedComment sender.name) now repo1 cm0 hsr1 hcm1
      refine ⟨σ2, ?_, ?_⟩
      · simp only [handleLabelEvent, hchanged, Bool.not_true, Bool.false_eq_true, if_false,
          hauthres, hl, hset, hreg]
      · rw [hpres, hp1]
        simp

/-- C5 witness: carol (no write permission in the fixture store) flips
the `approved` label on alice's PR #7; the snapshot shows the label
present, so the revert deletes it and the rejection comment follows. -/
theorem handleLabelEvent_unauthorized_revert_witness :
    ∃ σ' : Store,
      handleLabelEvent carolUser (some prFixture) "tmax/repo" 60 storeFixture
        = (GoRes.ok (), σ',
            (if carolUser.id = prFixture.author.id then []
             else [RemoteOp.canUserWrite carolUser.name])
              ++ [(if prFixture.labels.any (fun l => l.name == approvedLabel) then
                     RemoteOp.deleteLabel prFixture.id approvedLabel
                   else RemoteOp.setLabel prFixture.id approvedLabel),
                  RemoteOp.registerComment prFixture.id
                    (generateUserUnauthorizedComment carolUser.name)])
      ∧ storePR σ' "tmax/repo" prFixture.id
          = some { prFixture with labels :=
              (if prFixture.labels.any (fun l => l.name == approvedLabel) then
                 eraseLabel prFixture.labels approvedLabel
               else prFixture.labels ++ [⟨approvedLabel⟩]) } :=
  handleLabelEvent_unauthorized_revert carolUser prFixture "tmax/repo" 60 storeFixture
    repoFixture [(7, prFixture)] prFixture [(7, [])] rfl rfl rfl rfl (by decide)
    (Or.inr ⟨by decide, by rfl⟩)

/-- C9: `authorize` rejects the PR's author regardless of write
privilege (the author check compares the account ids), and accepts any
other user whose `CanUserWriteToRepo` read yields write permission. -/
theorem authorize_author_write (repoName : String) (sender author : User) (σ : Store) :
    (sender.id = author.id →
      (authorize repoName sender author σ).1
        = GoRes.err (GitErr.unauthorized sender.name repoName))
    ∧ (sender.id ≠ author.id → CanUserWriteToRepo σ repoName sender = GoRes.ok true →
      (authorize repoName sender author σ).1 = GoRes.ok ()) := by
  constructor
  · intro h
    simp [authorize, h]
  · intro h hw
    simp [authorize, h, hw]

/-- C9 witness: the theorem applied to alice approving her own PR and
to bob (write permission in the fixture store) approving alice's. -/
theorem authorize_author_write_witness :
    (authorize "tmax/repo" aliceUser aliceUser storeFixture).1
      = GoRes.err (GitErr.unauthorized aliceUser.name "tmax/repo")
    ∧ (authorize "tmax/repo" bobUser aliceUser storeFixture).1 = GoRes.ok () :=
  ⟨(authorize_author_write "tmax/repo" aliceUser aliceUser storeFixture).1 rfl,
   (authorize_author_write "tmax/repo" bobUser aliceUser storeFixture).2 (by decide) (by rfl)⟩

/-- C10 (corrected): with a nil git token, `Handle` returns nil having
made no remote call for every webhook, and `HandleChatOps` does so for
every webhook carrying an issue-comment payload; but `HandleChatOps`
dereferences that payload before its token check, so a webhook without
one panics instead of returning nil (see the counterexample) — the
claim's "for every inbound webhook" does not hold for `HandleChatOps`. -/
theorem handle_nil_token (wh : Webhook) (ic : IntegrationConfig) (command : Command)
    (now : Nat) (σ : Store) (htok : ic.token = none) :
    Handle wh ic now σ = (GoRes.ok (), σ, [])
    ∧ (∀ c : IssueComment, wh.issueComment = some c →
        HandleChatOps command wh ic now σ = (GoRes.ok (), σ, [])) := by
  constructor
  · rw [Handle, if_pos htok]
  · intro c hc
    simp only [HandleChatOps, hc]
    cases hpr : c.issue.pullRequest with
    | none => simp
    | some pr =>
      by_cases hst : pr.state = PullRequestState.opened
      · simp [hst, htok]
      · simp [hst]

/-- C10 counterexample: a webhook whose issue-comment pointer is nil
makes `HandleChatOps` panic on the `issueComment.Issue.PullRequest`
dereference even though the config's token is nil, instead of
returning nil. -/
theorem handleChatOps_nil_comment_crash :
    HandleChatOps ⟨"approve", []⟩ ⟨EventType.issueComment, bobUser, "u", none, none⟩
      ⟨"tmax/repo", none⟩ 0 storeFixture
      = (GoRes.crash, storeFixture, []) := by rfl

/-! ### The swap-removal permutation lemma -/

theorem removeSwap_perm (l : List String) (idx : Nat) (h : idx < l.length) :
    (removeSwap l idx).Perm (l.eraseIdx idx) := by
  by_cases h1 : l.length = 1
  · rw [removeSwap, if_pos h1]
    cases l with
    | nil => simp at h1
    | cons a t =>
      simp only [List.length_cons, Nat.add_left_eq_self] at h1
      have ht : t = [] := List.length_eq_zero.1 h1
      subst ht
      have hidx0 : idx = 0 := by simp at h; omega
      subst hidx0
      simp
  · rw [removeSwap, if_neg h1]
    have hn1 : 1 ≤ l.length := by
      cases l with
      | nil => simp at h
      | cons a t => simp
    have hlastlt : l.length - 1 < l.length := by omega
    have hstep : ((l.set idx (l.getD (l.length - 1) "")).set (l.length - 1) "").take (l.length - 1)
        = (l.take (l.length - 1)).set idx (l.getD (l.length - 1) "") := by
      rw [List.set_take, List.set_take]
      rw [List.set_eq_of_length_le (by simp)]
    simp only []
    rw [hstep]
    rcases Nat.lt_or_ge idx (l.length - 1) with hidx | hge
    · -- the marker is not the last entry: the last entry moves into its slot
      have hz : l.getD (l.length - 1) "" = l[l.length - 1] := by
        rw [List.getD_eq_getElem?_getD, List.getElem?_eq_getElem hlastlt]
        rfl
      have hset : (l.take (l.length - 1)).set idx (l.getD (l.length - 1) "")
          = l.take idx ++ (l.getD (l.length - 1) "")
              :: (l.drop (idx + 1)).take (l.length - 1 - (idx + 1)) := by
        rw [List.set_eq_take_cons_drop _ (by simp; omega)]
        rw [List.take_take, Nat.min_def, if_pos (by omega)]
        rw [List.drop_take]
      have hD : l.drop (idx + 1) ≠ [] := by
        simp only [ne_eq, List.drop_eq_nil_iff]
        omega
      have hDlen : (l.drop (idx + 1)).length = l.length - idx - 1 := by
        rw [List.length_drop]
        omega
      have hgetLast : (l.drop (idx + 1)).getLast hD = l[l.length - 1] := by
        rw [List.getLast_eq_getElem]
        rw [List.getElem_drop]
        congr 1
        omega
      have hdropLast : (l.drop (idx + 1)).take (l.length - 1 - (idx + 1))
          = (l.drop (idx + 1)).dropLast := by
        rw [List.dropLast_eq_take, hDlen]
        congr 1
        omega
      rw [hset, hdropLast, List.eraseIdx_eq_take_drop_succ]
      refine List.Perm.append_left (l.take idx) ?_
      have hrebuild : (l.drop (idx + 1)).dropLast ++ [(l.drop (idx + 1)).getLast hD]
          = l.drop (idx + 1) := List.dropLast_concat_getLast hD
      have hperm : List.Perm
          ((l.drop (idx + 1)).getLast hD :: (l.drop (idx + 1)).dropLast)
          ((l.drop (idx + 1)).dropLast ++ [(l.drop (idx + 1)).getLast hD]) := by
        have hp := @List.perm_middle String ((l.drop (idx + 1)).getLast hD)
          ((l.drop (idx + 1)).dropLast) ([] : List String)
        simpa using hp.symm
      rw [hz, ← hgetLast]
      conv_rhs => rw [← hrebuild]
      exact hperm
    · -- the marker is the last entry: plain truncation
      have hidx : idx = l.length - 1 := by omega
      rw [List.set_eq_of_length_le (by simp; omega)]
      rw [List.eraseIdx_eq_take_drop_succ, hidx,
        List.drop_eq_nil_of_le (by omega), List.append_nil]

/-! ### Claim C2 -/

/-- C2 (corrected): on a pass where the deletion timestamp is present,
the finalizer marker sits at index `idx` of the finalizer list and the
metadata persist succeeds, the reconciler exits the pass with no error,
notifies the scheduler exactly once, and persists the finalizer list
with the entry at `idx` removed — but by swap-removal (the LAST entry
moves into slot `idx`), so the other finalizers are preserved only as a
multiset (a permutation of the rest), not in their relative order (see
the counterexample). -/
theorem handleFinalizer_deletion_amended (env : ReconcileEnv) (job : IntegrationJob)
    (idx : Nat)
    (hdel : job.deletionTimestamp.isSome = true)
    (hidx : job.finalizers.findIdx? (fun f => f == finalizer) = some idx)
    (hpatch : env.metaPatchErr = none) :
    (handleFinalizer env job).exit = true
    ∧ (handleFinalizer env job).err = none
    ∧ (handleFinalizer env job).trace
        = [K8sOp.notify, K8sOp.patchMeta (handleFinalizer env job).job.finalizers]
    ∧ notifyCount (handleFinalizer env job).trace = 1
    ∧ ((handleFinalizer env job).job.finalizers).Perm (job.finalizers.eraseIdx idx)
    ∧ Reconcile env job
        = ⟨(handleFinalizer env job).job, (handleFinalizer env job).trace, none⟩ := by
  have hlt : idx < job.finalizers.length :=
    (List.findIdx?_eq_some_iff_findIdx_eq.1 hidx).1
  have hh : handleFinalizer env job
      = ⟨{ job with finalizers := removeSwap job.finalizers idx },
         [K8sOp.notify, K8sOp.patchMeta (removeSwap job.finalizers idx)], true, none⟩ := by
    simp only [handleFinalizer, hidx, hdel, if_true, hpatch]
  refine ⟨by rw [hh], by rw [hh], by rw [hh], by rw [hh]; rfl, ?_, ?_⟩
  · rw [hh]
    exact removeSwap_perm job.finalizers idx hlt
  · simp only [Reconcile, hh]
    simp

/-- C2 counterexample: deleting a job whose finalizers are
[marker, "cleanup-a", "cleanup-b"] leaves ["cleanup-b", "cleanup-a"] —
the marker is removed but the relative order of the other finalizers is
reversed, refuting "preserving the relative order of any other
finalizers present". -/
theorem handleFinalizer_swap_order_counterexample :
    (handleFinalizer envOk jobDel).job.finalizers = ["cleanup-b", "cleanup-a"]
    ∧ (handleFinalizer envOk jobDel).job.finalizers ≠ ["cleanup-a", "cleanup-b"] := by
  exact ⟨by rfl, by decide⟩

/-- C2 witness: the amended theorem applied to the deleted-job fixture
(marker at index 0). -/
theorem handleFinalizer_deletion_amended_witness :
    (handleFinalizer envOk jobDel).exit = true
    ∧ notifyCount (handleFinalizer envOk jobDel).trace = 1
    ∧ ((handleFinalizer envOk jobDel).job.finalizers).Perm (jobDel.finalizers.eraseIdx 0) :=
  ⟨(handleFinalizer_deletion_amended envOk jobDel 0 rfl rfl rfl).1,
   (handleFinalizer_deletion_amended envOk jobDel 0 rfl rfl rfl).2.2.2.1,
   (handleFinalizer_deletion_amended envOk jobDel 0 rfl rfl rfl).2.2.2.2.1⟩

/-- C10 witness: the amended theorem applied to a comment-bearing
webhook and a nil-token configuration. -/
theorem handle_nil_token_witness :
    Handle whFixture ⟨"tmax/repo", none⟩ 0 storeFixture = (GoRes.ok (), storeFixture, [])
    ∧ HandleChatOps ⟨"approve", []⟩ whFixture ⟨"tmax/repo", none⟩ 0 storeFixture
        = (GoRes.ok (), storeFixture, []) :=
  ⟨(handle_nil_token whFixture ⟨"tmax/repo", none⟩ ⟨"approve", []⟩ 0 storeFixture rfl).1,
   (handle_nil_token whFixture ⟨"tmax/repo", none⟩ ⟨"approve", []⟩ 0 storeFixture rfl).2
      commentFixture rfl⟩

/-! ### Claims C3 and C6 -/

/-- C3 (corrected): for a job whose status carries a CompletionTime, a
reconcile pass in which the finalizer metadata persist succeeds issues
no status patch, leaves the in-memory status unchanged and returns no
error, on every path (finalizer addition, deletion handling, and the
terminal skip); but when the finalizer persist fails, the reconciler
force-patches even a completed job's status to Failed (see the
counterexample), so "no status mutation on any path including error
paths" does not hold as claimed. -/
theorem completed_job_status_untouched (env : ReconcileEnv) (job : IntegrationJob)
    (hdone : job.status.completionTime.isSome = true)
    (hpatch : env.metaPatchErr = none) :
    statusPatches (Reconcile env job).trace = []
    ∧ (Reconcile env job).job.status = job.status
    ∧ (Reconcile env job).err = none := by
  cases hidx : job.finalizers.findIdx? (fun f => f == finalizer) with
  | none =>
    have hh : handleFinalizer env job
        = ⟨{ job with finalizers := job.finalizers ++ [finalizer] },
           [K8sOp.patchMeta (job.finalizers ++ [finalizer])], true, none⟩ := by
      simp only [handleFinalizer, hidx, hpatch]
    simp only [Reconcile, hh]
    simp [statusPatches]
  | some idx =>
    cases hts : job.deletionTimestamp with
    | some t =>
      have hh : handleFinalizer env job
          = ⟨{ job with finalizers := removeSwap job.finalizers idx },
             [K8sOp.notify, K8sOp.patchMeta (removeSwap job.finalizers idx)], true, none⟩ := by
        simp only [handleFinalizer, hidx, hts, Option.isSome_some, if_true, hpatch]
      simp only [Reconcile, hh]
      simp [statusPatches]
    | none =>
      have hh : handleFinalizer env job = ⟨job, [], false, none⟩ := by
        simp only [handleFinalizer, hidx, hts, Option.isSome_none, Bool.false_eq_true,
          if_false]
      simp only [Reconcile, hh]
      simp [statusPatches, hdone]

/-- C3 counterexample: a completed job (CompletionTime set) without the
finalizer gets its status patched to Failed when the finalizer-add
persist fails — a status mutation on an error path of the pass. -/
theorem completed_job_patched_counterexample :
    jobDoneNoFin.status.completionTime.isSome = true
    ∧ statusPatches (Reconcile envPatchFail jobDoneNoFin).trace
        = [⟨IntegrationJobStateFailed, "patch refused", some 99⟩] := by
  exact ⟨by rfl, by rfl⟩

/-- C3 witness: the amended theorem applied to a completed job with the
finalizer present and a succeeding metadata patch. -/
theorem completed_job_status_untouched_witness :
    statusPatches (Reconcile envOk jobDone).trace = []
    ∧ (Reconcile envOk jobDone).job.status = jobDone.status
    ∧ (Reconcile envOk jobDone).err = none :=
  completed_job_status_untouched envOk jobDone rfl rfl

/-- C6: on a pass that reaches status reconciliation (finalizer marker
present, no deletion timestamp, no completion time), an error fetching
the owning configuration, a hard error fetching the run, or an error
reflecting status each produce exactly one status patch — to Failed
with the error's literal text as the message — and the pass returns no
error upward; when those all succeed, the error returned to the caller
is exactly the final status persist's outcome, so only a persist
failure propagates for retry. -/
theorem reconcile_error_conversion (env : ReconcileEnv) (job : IntegrationJob)
    (hfin : (job.finalizers.findIdx? (fun f => f == finalizer)).isSome = true)
    (hts : job.deletionTimestamp = none)
    (hdone : job.status.completionTime = none) :
    (∀ e : String, env.getConfigErr = some e →
      statusPatches (Reconcile env job).trace
          = [{ job.status with state := IntegrationJobStateFailed, msg := e }]
        ∧ (Reconcile env job).err = none)
    ∧ (∀ e : String, env.getConfigErr = none → env.getRun = GetRunResult.failure e →
      statusPatches (Reconcile env job).trace
          = [{ job.status with state := IntegrationJobStateFailed, msg := e }]
        ∧ (Reconcile env job).err = none)
    ∧ (∀ e : String, env.getConfigErr = none →
        (env.getRun = GetRunResult.found ∨ env.getRun = GetRunResult.notFound) →
        env.reflect (env.getRun = GetRunResult.found) (env.setDefaults job.status)
            = Except.error e →
      statusPatches (Reconcile env job).trace
          = [{ env.setDefaults job.status with
                state := IntegrationJobStateFailed, msg := e }]
        ∧ (Reconcile env job).err = none)
    ∧ (∀ st : IntegrationJobStatus, env.getConfigErr = none →
        (env.getRun = GetRunResult.found ∨ env.getRun = GetRunResult.notFound) →
        env.reflect (env.getRun = GetRunResult.found) (env.setDefaults job.status)
            = Except.ok st →
      (Reconcile env job).err = env.statusPatchErr) := by
  have hfr : handleFinalizer env job = ⟨job, [], false, none⟩ := by
    obtain ⟨idx, hidx⟩ := Option.isSome_iff_exists.1 hfin
    simp only [handleFinalizer, hidx, hts, Option.isSome_none, Bool.false_eq_true, if_false]
  refine ⟨?_, ?_, ?_, ?_⟩
  · intro e he
    simp only [Reconcile, hfr, he, patchJobFailed]
    simp [statusPatches, hdone]
  · intro e hc hr
    simp only [Reconcile, hfr, hc, hr, patchJobFailed]
    simp [statusPatches, hdone]
  · intro e hc hor hrefl
    rcases hor with hrun | hrun
    · rw [hrun] at hrefl
      simp at hrefl
      simp only [Reconcile, hfr, hc, hrun, patchJobFailed]
      simp [statusPatches, hdone, hrefl]
    · rw [hrun] at hrefl
      simp at hrefl
      simp only [Reconcile, hfr, hc, hrun, patchJobFailed]
      simp [statusPatches, hdone, hrefl]
  · intro st hc hor hrefl
    cases hsp : env.statusPatchErr with
    | some e =>
      rcases hor with hrun | hrun
      · rw [hrun] at hrefl
        simp at hrefl
        simp only [Reconcile, hfr, hc, hrun, patchJobFailed]
        simp [hdone, hrefl, hsp]
      · rw [hrun] at hrefl
        simp at hrefl
        simp only [Reconcile, hfr, hc, hrun, patchJobFailed]
        simp [hdone, hrefl, hsp]
    | none =>
      rcases hor with hrun | hrun
      · rw [hrun] at hrefl
        simp at hrefl
        simp only [Reconcile, hfr, hc, hrun, patchJobFailed]
        simp [hdone, hrefl, hsp]
      · rw [hrun] at hrefl
        simp at hrefl
        simp only [Reconcile, hfr, hc, hrun, patchJobFailed]
        simp [hdone, hrefl, hsp]

/-- C6 witness: the theorem applied to a running job and an oracle
whose config fetch fails with "boom". -/
theorem reconcile_error_conversion_witness :
    statusPatches (Reconcile envCfgErr jobActive).trace
        = [{ jobActive.status with state := IntegrationJobStateFailed, msg := "boom" }]
    ∧ (Reconcile envCfgErr jobActive).err = none :=
  (reconcile_error_conversion envCfgErr jobActive rfl rfl rfl).1 "boom" rfl

end Cicd
